import Mathlib

/-!
Verification of the prediction-normalization and artifact-output pipeline of
`autosklearn/evaluation/abstract_evaluator.py` (class `AbstractEvaluator`).

Shallow embedding conventions:
* numpy 2-D arrays become `List (List ℚ)` (rows of entries);
* numpy 1-D arrays become `List ℚ`;
* task-type constants from `autosklearn.constants` become an inductive type;
* fallible operations return `Option`/`Except`;
* filesystem and environment effects are modelled by explicit parameters
  describing the outcomes of the corresponding OS calls.
-/

namespace AutoSklearn

/-- Task-type constants from `autosklearn.constants`. -/
inductive TaskType
  | binary
  | multiclass
  | multilabel
  | regression
deriving DecidableEq, Repr

/-- A 2-D numeric array: a list of rows. -/
abbrev Mat := List (List ℚ)

/-- `m.shape[0]`: number of rows. -/
def nrows (m : Mat) : Nat := m.length

/-- `m.shape[1]`: number of columns, read off the first row (numpy arrays are
rectangular; well-formedness is carried as a hypothesis where needed). -/
def ncols (m : Mat) : Nat := (m.headD []).length

/-- `m[:, j]`: column `j` of a matrix (out-of-range entries default to `0`). -/
def getCol (m : Mat) (j : Nat) : List ℚ := m.map (fun row => row.getD j 0)

/-- `m[:, j] = v`: replace column `j` of `m` by `v` (row `i` receives `v[i]`). -/
def setCol (m : Mat) (j : Nat) (v : List ℚ) : Mat :=
  (m.zip v).map (fun p => p.1.set j p.2)

/-- `np.zeros((r, c))`. -/
def zeros (r c : Nat) : Mat := List.replicate r (List.replicate c 0)

/-- Insert an integer into an ascending-sorted list, keeping it sorted. -/
def insertSorted (x : Int) : List Int → List Int
  | [] => [x]
  | y :: ys => if x ≤ y then x :: y :: ys else y :: insertSorted x ys

/-- Ascending insertion sort on integers. -/
def sortInts (l : List Int) : List Int := l.foldr insertSorted []

/-- `np.unique(l)`: the ascending-sorted list of distinct values of `l`. -/
def npUnique (l : List Int) : List Int := (sortInts l).dedup

/-- The `mapping` dict of `_ensure_prediction_array_sizes`: for each
`class_number in range(num_classes)` present in `classes`, associate
`classes.index(class_number) ↦ class_number`. -/
def buildMapping (numClasses : Nat) (classes : List Int) : List (Nat × Nat) :=
  (List.range numClasses).filterMap (fun (c : Nat) =>
    if (c : Int) ∈ classes then
      some (classes.indexOf (c : Int), c)
    else none)

/-- `AbstractEvaluator._ensure_prediction_array_sizes(prediction, Y_train)`.
`numClasses` is `self.D.info['target_num']`, `yTrainData` is
`self.D.data['Y_train']`, `yTrain` is the optional `Y_train` argument.
The inner `if num_classes == prediction.shape[1]: return prediction` of the
source is kept verbatim (it sits under the outer strict-inequality guard). -/
def ensurePredictionArraySizes (taskType : TaskType) (numClasses : Nat)
    (yTrainData : List Int) (yTrain : Option (List Int)) (prediction : Mat) : Mat :=
  if taskType = TaskType.multiclass ∧ ncols prediction < numClasses then
    if numClasses = ncols prediction then prediction
    else
      let classes : List Int :=
        match yTrain with
        | some yt => npUnique yt
        | none => npUnique yTrainData
      let mapping := buildMapping numClasses classes
      mapping.foldl
        (fun newPredictions p =>
          setCol newPredictions p.2 (getCol prediction p.1))
        (zeros (nrows prediction) numClasses)
  else prediction

/-- `_ensure_prediction_array_sizes` with the inner early-return branch
(`if num_classes == prediction.shape[1]: return prediction`) deleted;
used to state that that branch is dead code. -/
def ensurePredictionArraySizesLive (taskType : TaskType) (numClasses : Nat)
    (yTrainData : List Int) (yTrain : Option (List Int)) (prediction : Mat) : Mat :=
  if taskType = TaskType.multiclass ∧ ncols prediction < numClasses then
    let classes : List Int :=
      match yTrain with
      | some yt => npUnique yt
      | none => npUnique yTrainData
    let mapping := buildMapping numClasses classes
    mapping.foldl
      (fun newPredictions p =>
        setCol newPredictions p.2 (getCol prediction p.1))
      (zeros (nrows prediction) numClasses)
  else prediction

/-! ### Helper lemmas about columns, `setCol` and `zeros` -/

lemma getD_set_ne {α : Type} (l : List α) (i j : Nat) (x d : α) (h : i ≠ j) :
    (l.set i x).getD j d = l.getD j d := by
  induction l generalizing i j with
  | nil => simp [List.set]
  | cons a l ih =>
    cases i with
    | zero =>
      cases j with
      | zero => exact absurd rfl h
      | succ j => simp [List.set]
    | succ i =>
      cases j with
      | zero => simp [List.set]
      | succ j => simpa [List.set] using ih i j (by omega)

lemma getD_set_self {α : Type} (l : List α) (i : Nat) (x d : α) (h : i < l.length) :
    (l.set i x).getD i d = x := by
  induction l generalizing i with
  | nil => simp at h
  | cons a l ih =>
    cases i with
    | zero => simp [List.set]
    | succ i => simpa [List.set] using ih i (by simpa using h)

lemma length_setCol (m : Mat) (j : Nat) (v : List ℚ) (hv : v.length = m.length) :
    (setCol m j v).length = m.length := by
  simp [setCol, List.length_zip, hv]

lemma rows_setCol (m : Mat) (j : Nat) (v : List ℚ) (w : Nat)
    (hm : ∀ row ∈ m, row.length = w) :
    ∀ row ∈ setCol m j v, row.length = w := by
  intro row hrow
  simp only [setCol, List.mem_map] at hrow
  obtain ⟨⟨r, x⟩, hmem, hrw⟩ := hrow
  have hr : r ∈ m := (List.of_mem_zip hmem).1
  simpa [← hrw] using hm r hr

lemma getCol_setCol_self (m : Mat) (j : Nat) (v : List ℚ)
    (hv : v.length = m.length) (hrows : ∀ row ∈ m, j < row.length) :
    getCol (setCol m j v) j = v := by
  induction m generalizing v with
  | nil =>
    cases v with
    | nil => rfl
    | cons x xs => simp at hv
  | cons row m ih =>
    cases v with
    | nil => simp at hv
    | cons x xs =>
      have h1 : j < row.length := hrows row (by simp)
      simp only [setCol, List.zip_cons_cons, List.map_cons, getCol]
      rw [getD_set_self row j x 0 h1]
      have := ih xs (by simpa using hv) (fun r hr => hrows r (by simp [hr]))
      simpa [getCol, setCol] using this

lemma getCol_setCol_ne (m : Mat) (j j' : Nat) (v : List ℚ)
    (hv : v.length = m.length) (hne : j' ≠ j) :
    getCol (setCol m j v) j' = getCol m j' := by
  induction m generalizing v with
  | nil => cases v <;> rfl
  | cons row m ih =>
    cases v with
    | nil => simp at hv
    | cons x xs =>
      simp only [setCol, List.zip_cons_cons, List.map_cons, getCol]
      rw [getD_set_ne row j j' x 0 (fun h => hne h.symm)]
      have := ih xs (by simpa using hv)
      simpa [getCol, setCol] using this

lemma length_getCol (m : Mat) (j : Nat) : (getCol m j).length = m.length := by
  simp [getCol]

lemma length_zeros (r c : Nat) : (zeros r c).length = r := by
  simp [zeros]

lemma rows_zeros (r c : Nat) : ∀ row ∈ zeros r c, row.length = c := by
  intro row hrow
  simp only [zeros, List.mem_replicate] at hrow
  simp [hrow.2]

lemma getD_replicate_zero (c j : Nat) : (List.replicate c (0 : ℚ)).getD j 0 = 0 := by
  rcases Nat.lt_or_ge j c with h | h
  · rw [List.getD_eq_getElem _ _ (by simpa using h)]
    simp
  · exact List.getD_eq_default _ _ (by simpa using h)

lemma getCol_zeros (r c j : Nat) : getCol (zeros r c) j = List.replicate r 0 := by
  simp [getCol, zeros, getD_replicate_zero]

/-! ### The column-assignment fold of `_ensure_prediction_array_sizes` -/

/-- One column assignment `new_predictions[:, mapping[index]] = prediction[:, index]`. -/
def assignStep (pred : Mat) (acc : Mat) (pr : Nat × Nat) : Mat :=
  setCol acc pr.2 (getCol pred pr.1)

lemma length_foldAssign (pred : Mat) (l : List (Nat × Nat)) (init : Mat)
    (hinit : init.length = pred.length) :
    (l.foldl (assignStep pred) init).length = pred.length := by
  induction l generalizing init with
  | nil => simpa using hinit
  | cons pr l ih =>
    simp only [List.foldl_cons]
    exact ih _ (by rw [assignStep, length_setCol _ _ _ (by simp [length_getCol, hinit]), hinit])

lemma rows_foldAssign (pred : Mat) (l : List (Nat × Nat)) (init : Mat) (w : Nat)
    (hinit : ∀ row ∈ init, row.length = w) :
    ∀ row ∈ l.foldl (assignStep pred) init, row.length = w := by
  induction l generalizing init with
  | nil => simpa using hinit
  | cons pr l ih =>
    simp only [List.foldl_cons]
    exact ih _ (rows_setCol _ _ _ _ hinit)

lemma getCol_foldAssign (pred : Mat) (l : List (Nat × Nat)) (init : Mat) (w : Nat)
    (hlen : init.length = pred.length)
    (hrows : ∀ row ∈ init, row.length = w)
    (htgt : ∀ pr ∈ l, pr.2 < w)
    (hnd : (l.map Prod.snd).Nodup) (c : Nat) :
    getCol (l.foldl (assignStep pred) init) c =
      match l.find? (fun pr => pr.2 == c) with
      | some pr => getCol pred pr.1
      | none => getCol init c := by
  induction l generalizing init with
  | nil => rfl
  | cons pr l ih =>
    have hvlen : (getCol pred pr.1).length = init.length := by
      rw [length_getCol, hlen]
    have hlen' : (setCol init pr.2 (getCol pred pr.1)).length = pred.length := by
      rw [length_setCol _ _ _ hvlen, hlen]
    have hrows' := rows_setCol init pr.2 (getCol pred pr.1) w hrows
    have htgt' : ∀ q ∈ l, q.2 < w := fun q hq => htgt q (by simp [hq])
    have hnd' : (l.map Prod.snd).Nodup := by
      simpa using hnd.of_cons
    simp only [List.foldl_cons]
    rw [show assignStep pred init pr = setCol init pr.2 (getCol pred pr.1) from rfl,
      ih _ hlen' hrows' htgt' hnd']
    by_cases hc : pr.2 = c
    · subst hc
      have hnotin : ∀ q ∈ l, ¬(q.2 == pr.2) := by
        intro q hq hbeq
        have : q.2 = pr.2 := by simpa using hbeq
        have hmem : pr.2 ∈ l.map Prod.snd := by
          exact List.mem_map.mpr ⟨q, hq, this⟩
        simp only [List.map_cons, List.nodup_cons] at hnd
        exact hnd.1 hmem
      have hfind : l.find? (fun q => q.2 == pr.2) = none :=
        List.find?_eq_none.mpr hnotin
      rw [hfind]
      have hhead : List.find? (fun q => q.2 == pr.2) (pr :: l) = some pr := by
        simp [List.find?_cons]
      rw [hhead]
      exact getCol_setCol_self init pr.2 (getCol pred pr.1) hvlen
        (fun row hrow => by rw [hrows row hrow]; exact htgt pr (by simp))
    · have hhead : List.find? (fun q => q.2 == c) (pr :: l) =
          List.find? (fun q => q.2 == c) l := by
        simp [List.find?_cons, hc]
      rw [hhead]
      cases hfind : l.find? (fun q => q.2 == c) with
      | some q => rfl
      | none =>
        exact getCol_setCol_ne init pr.2 c (getCol pred pr.1) hvlen (fun h => hc h.symm)

/-! ### Properties of `buildMapping` -/

lemma mem_buildMapping (numClasses : Nat) (classes : List Int) (pr : Nat × Nat) :
    pr ∈ buildMapping numClasses classes ↔
      pr.2 < numClasses ∧ (pr.2 : Int) ∈ classes ∧
        pr.1 = classes.indexOf (pr.2 : Int) := by
  simp only [buildMapping, List.mem_filterMap, List.mem_range]
  constructor
  · rintro ⟨c, hc, hf⟩
    by_cases h : (c : Int) ∈ classes
    · simp only [if_pos h, Option.some.injEq] at hf
      obtain ⟨h1, h2⟩ := Prod.mk.injEq _ _ _ _ ▸ hf
      cases pr with
      | mk a b =>
        simp only [Prod.mk.injEq] at hf
        obtain ⟨ha, hb⟩ := hf
        subst hb
        exact ⟨hc, h, ha.symm⟩
    · simp [if_neg h] at hf
  · rintro ⟨h1, h2, h3⟩
    exact ⟨pr.2, h1, by rw [if_pos h2]; cases pr with | mk a b => simp at h3 ⊢; omega⟩

lemma map_snd_filterMapAssign (classes : List Int) (l : List Nat) :
    ((l.filterMap (fun (c : Nat) =>
        if (c : Int) ∈ classes then
          some (classes.indexOf (c : Int), c)
        else none)).map Prod.snd) =
      l.filter (fun (c : Nat) => decide ((c : Int) ∈ classes)) := by
  induction l with
  | nil => rfl
  | cons c l ih =>
    by_cases h : (c : Int) ∈ classes
    · simp [List.filterMap_cons, List.filter_cons, h, ih]
    · simp [List.filterMap_cons, List.filter_cons, h, ih]

lemma nodup_snd_buildMapping (numClasses : Nat) (classes : List Int) :
    ((buildMapping numClasses classes).map Prod.snd).Nodup := by
  rw [buildMapping, map_snd_filterMapAssign]
  exact (List.nodup_range numClasses).filter _

lemma ncols_eq_of_rows (m : Mat) (w : Nat) (hne : m ≠ [])
    (h : ∀ row ∈ m, row.length = w) : ncols m = w := by
  cases m with
  | nil => exact absurd rfl hne
  | cons r t => exact h r (by simp)

lemma ensure_multiclass_eq_fold (numClasses : Nat) (yTrainData yTrain : List Int)
    (prediction : Mat) (hlt : ncols prediction < numClasses) :
    ensurePredictionArraySizes TaskType.multiclass numClasses yTrainData
        (some yTrain) prediction =
      (buildMapping numClasses (npUnique yTrain)).foldl (assignStep prediction)
        (zeros (nrows prediction) numClasses) := by
  have hcond : TaskType.multiclass = TaskType.multiclass ∧
      ncols prediction < numClasses := ⟨rfl, hlt⟩
  have hne2 : ¬(numClasses = ncols prediction) := by omega
  simp only [ensurePredictionArraySizes, if_pos hcond, if_neg hne2]
  rw [if_pos (⟨trivial, hlt⟩ : True ∧ ncols prediction < numClasses)]
  rfl

/-- C1: for multiclass classification with `ncols prediction < numClasses`,
`_ensure_prediction_array_sizes` returns a matrix with the same row count and
exactly `numClasses` columns, where for each class label `c` observed in the
training labels, input column `(npUnique yTrain).indexOf c` (the position of
`c` in the ascending-sorted distinct observed labels) is copied to output
column `c`, and every column whose class never appears among the observed
training labels is all zero. -/
theorem claim_C1_class_alignment (numClasses : Nat) (yTrainData yTrain : List Int)
    (prediction : Mat)
    (hlt : ncols prediction < numClasses) (hne : prediction ≠ []) :
    nrows (ensurePredictionArraySizes TaskType.multiclass numClasses yTrainData
        (some yTrain) prediction) = nrows prediction ∧
    ncols (ensurePredictionArraySizes TaskType.multiclass numClasses yTrainData
        (some yTrain) prediction) = numClasses ∧
    (∀ c : Nat, c < numClasses → (c : Int) ∈ npUnique yTrain →
      getCol (ensurePredictionArraySizes TaskType.multiclass numClasses yTrainData
          (some yTrain) prediction) c =
        getCol prediction ((npUnique yTrain).indexOf (c : Int))) ∧
    (∀ c : Nat, c < numClasses → (c : Int) ∉ npUnique yTrain →
      getCol (ensurePredictionArraySizes TaskType.multiclass numClasses yTrainData
          (some yTrain) prediction) c = List.replicate (nrows prediction) 0) := by
  rw [ensure_multiclass_eq_fold numClasses yTrainData yTrain prediction hlt]
  set classes := npUnique yTrain with hclasses
  set mapping := buildMapping numClasses classes with hmapping
  have hinitlen : (zeros (nrows prediction) numClasses).length = prediction.length :=
    length_zeros _ _
  have hinitrows := rows_zeros (nrows prediction) numClasses
  have htgt : ∀ pr ∈ mapping, pr.2 < numClasses := fun pr hpr =>
    ((mem_buildMapping numClasses classes pr).mp hpr).1
  have hnd := nodup_snd_buildMapping numClasses classes
  have hfoldlen : (mapping.foldl (assignStep prediction)
      (zeros (nrows prediction) numClasses)).length = prediction.length :=
    length_foldAssign prediction mapping _ hinitlen
  have hfoldrows := rows_foldAssign prediction mapping
    (zeros (nrows prediction) numClasses) numClasses hinitrows
  refine ⟨hfoldlen, ?_, ?_, ?_⟩
  · refine ncols_eq_of_rows _ _ ?_ hfoldrows
    intro habs
    rw [habs] at hfoldlen
    exact hne (List.eq_nil_of_length_eq_zero hfoldlen.symm)
  · intro c hc hmem
    rw [getCol_foldAssign prediction mapping _ numClasses hinitlen hinitrows htgt hnd c]
    cases hfind : mapping.find? (fun pr => pr.2 == c) with
    | some pr =>
      have hp := List.find?_some hfind
      have hpr2 : pr.2 = c := by simpa using hp
      have hm := (mem_buildMapping numClasses classes pr).mp
        (List.mem_of_find?_eq_some hfind)
      show getCol prediction pr.1 = getCol prediction (classes.indexOf (c : Int))
      rw [hm.2.2, hpr2]
    | none =>
      exfalso
      have hall := List.find?_eq_none.mp hfind
      have hmem2 : (classes.indexOf (c : Int), c) ∈ mapping :=
        (mem_buildMapping numClasses classes _).mpr ⟨hc, hmem, rfl⟩
      exact hall _ hmem2 (by simp)
  · intro c hc hmem
    rw [getCol_foldAssign prediction mapping _ numClasses hinitlen hinitrows htgt hnd c]
    cases hfind : mapping.find? (fun pr => pr.2 == c) with
    | some pr =>
      exfalso
      have hp := List.find?_some hfind
      have hpr2 : pr.2 = c := by simpa using hp
      have hm := (mem_buildMapping numClasses classes pr).mp
        (List.mem_of_find?_eq_some hfind)
      rw [hpr2] at hm
      exact hmem hm.2.1
    | none => exact getCol_zeros _ _ _

/-- Witness for C1: the spec's concrete instance — observed labels `{0, 2}`,
`full_class_count = 3`, a `(2, 2)` prediction; the output is `(2, 3)` with
column `1` all zero and columns `0`, `2` equal to input columns `0`, `1`. -/
theorem claim_C1_class_alignment_witness :
    ncols [[(1 : ℚ), 2], [3, 4]] < 3 ∧ ([[(1 : ℚ), 2], [3, 4]] : Mat) ≠ [] ∧
    (nrows (ensurePredictionArraySizes TaskType.multiclass 3 []
        (some [0, 2]) [[(1 : ℚ), 2], [3, 4]]) = nrows [[(1 : ℚ), 2], [3, 4]] ∧
     ncols (ensurePredictionArraySizes TaskType.multiclass 3 []
        (some [0, 2]) [[(1 : ℚ), 2], [3, 4]]) = 3 ∧
     (∀ c : Nat, c < 3 → (c : Int) ∈ npUnique [0, 2] →
       getCol (ensurePredictionArraySizes TaskType.multiclass 3 []
           (some [0, 2]) [[(1 : ℚ), 2], [3, 4]]) c =
         getCol [[(1 : ℚ), 2], [3, 4]] ((npUnique [0, 2]).indexOf (c : Int))) ∧
     (∀ c : Nat, c < 3 → (c : Int) ∉ npUnique [0, 2] →
       getCol (ensurePredictionArraySizes TaskType.multiclass 3 []
           (some [0, 2]) [[(1 : ℚ), 2], [3, 4]]) c =
         List.replicate (nrows [[(1 : ℚ), 2], [3, 4]]) 0)) :=
  ⟨by decide, by decide,
    claim_C1_class_alignment 3 [] [0, 2] [[(1 : ℚ), 2], [3, 4]] (by decide) (by decide)⟩

/-- C8: `_ensure_prediction_array_sizes` is the identity on its input whenever
its precondition does not hold: if the task type is not multiclass
classification, or the prediction's column count is at least the full class
count, the input is returned unchanged (in particular when they are equal). -/
theorem claim_C8_alignment_identity (taskType : TaskType) (numClasses : Nat)
    (yTrainData : List Int) (yTrain : Option (List Int)) (prediction : Mat)
    (h : taskType ≠ TaskType.multiclass ∨ numClasses ≤ ncols prediction) :
    ensurePredictionArraySizes taskType numClasses yTrainData yTrain prediction =
      prediction := by
  unfold ensurePredictionArraySizes
  rw [if_neg]
  rintro ⟨h1, h2⟩
  rcases h with h | h
  · exact h h1
  · omega

/-- Witness for C8: with column count equal to the full class count (2) the
alignment is a no-op, even for a multiclass task. -/
theorem claim_C8_alignment_identity_witness :
    (TaskType.multiclass ≠ TaskType.multiclass ∨ 2 ≤ ncols [[(1 : ℚ), 2], [3, 4]]) ∧
    ensurePredictionArraySizes TaskType.multiclass 2 [0] (some [0, 1])
        [[(1 : ℚ), 2], [3, 4]] = [[(1 : ℚ), 2], [3, 4]] :=
  ⟨Or.inr (by decide),
    claim_C8_alignment_identity TaskType.multiclass 2 [0] (some [0, 1])
      [[(1 : ℚ), 2], [3, 4]] (Or.inr (by decide))⟩

/-- C10: the early-return branch `if num_classes == prediction.shape[1]:
return prediction` inside `_ensure_prediction_array_sizes` is dead code — it
is only evaluated under the enclosing strict inequality
`prediction.shape[1] < num_classes`, so deleting it
(`ensurePredictionArraySizesLive`) does not change the function on any
input. -/
theorem claim_C10_dead_branch (taskType : TaskType) (numClasses : Nat)
    (yTrainData : List Int) (yTrain : Option (List Int)) (prediction : Mat) :
    ensurePredictionArraySizes taskType numClasses yTrainData yTrain prediction =
      ensurePredictionArraySizesLive taskType numClasses yTrainData yTrain
        prediction := by
  unfold ensurePredictionArraySizes ensurePredictionArraySizesLive
  by_cases h : taskType = TaskType.multiclass ∧ ncols prediction < numClasses
  · rw [if_pos h, if_pos h, if_neg (by omega)]
  · rw [if_neg h, if_neg h]

/-! ### `predict_proba`: raw model output and task-type normalization -/

/-- The raw result of `model.predict_proba`: a 1-D array, a 2-D array, or a
Python list of per-label 2-D arrays (the multilabel case). -/
inductive RawPred
  | oneD (v : List ℚ)
  | twoD (m : Mat)
  | perLabel (ms : List Mat)
deriving DecidableEq, Repr

/-- `m[:, -1]`: the last column of each row. -/
def lastCol (m : Mat) : List ℚ := m.map (fun row => row.getD (row.length - 1) 0)

/-- `np.hstack` of single-column vectors: column `i` of the result is
`cols[i]`; the row count is the length of the first column. -/
def hstackCols (cols : List (List ℚ)) : Mat :=
  (List.range (cols.headD []).length).map (fun r => cols.map (fun col => col.getD r 0))

/-- The task-type branch of `predict_proba` (lines 156-165): multilabel
stacks each label's last-column probability; binary keeps column 1 of a
multi-dimensional output and passes a 1-D output through; multiclass passes
through.  `none` models a Python exception from indexing a value of the
wrong kind (e.g. `Y_pred[i][:, -1]` on a plain 2-D array). -/
def normalizeRaw (taskType : TaskType) (raw : RawPred) : Option RawPred :=
  match taskType with
  | TaskType.multilabel =>
    match raw with
    | RawPred.perLabel ms => some (RawPred.twoD (hstackCols (ms.map lastCol)))
    | _ => none
  | TaskType.binary =>
    match raw with
    | RawPred.oneD v => some (RawPred.oneD v)
    | RawPred.twoD m => some (RawPred.twoD (m.map (fun row => [row.getD 1 0])))
    | RawPred.perLabel _ => none
  | TaskType.multiclass => some raw
  | TaskType.regression => some raw

/-- `_ensure_prediction_array_sizes` applied to a raw prediction value.  For
a non-2-D value under a multiclass task, `prediction.shape[1]` would raise
(`none`); for any other task the guard short-circuits and the value passes
through unchanged. -/
def ensureRaw (taskType : TaskType) (numClasses : Nat) (yTrainData : List Int)
    (yTrain : Option (List Int)) : RawPred → Option RawPred
  | RawPred.twoD m =>
    some (RawPred.twoD
      (ensurePredictionArraySizes taskType numClasses yTrainData yTrain m))
  | r => if taskType = TaskType.multiclass then none else some r

/-- `AbstractEvaluator.predict_proba` after the `model.predict_proba` call:
the task-type normalization followed by `_ensure_prediction_array_sizes`. -/
def predict_proba (taskType : TaskType) (raw : RawPred) (numClasses : Nat)
    (yTrainData : List Int) (yTrain : Option (List Int)) : Option RawPred :=
  (normalizeRaw taskType raw).bind (ensureRaw taskType numClasses yTrainData yTrain)

lemma ensure_of_ne_multiclass (taskType : TaskType) (numClasses : Nat)
    (yTrainData : List Int) (yTrain : Option (List Int)) (prediction : Mat)
    (h : taskType ≠ TaskType.multiclass) :
    ensurePredictionArraySizes taskType numClasses yTrainData yTrain prediction =
      prediction := by
  unfold ensurePredictionArraySizes
  rw [if_neg]
  rintro ⟨h1, _⟩
  exact h h1

lemma range_map_getD {α : Type} (l : List α) (d : α) :
    (List.range l.length).map (fun r => l.getD r d) = l := by
  apply List.ext_getElem
  · simp
  · intro n h1 h2
    simp only [List.getElem_map, List.getElem_range]
    exact List.getD_eq_getElem l d h2

lemma getD_map_of_lt {α β : Type} (l : List α) (f : α → β) (i : Nat) (d : β) (d' : α)
    (h : i < l.length) : (l.map f).getD i d = f (l.getD i d') := by
  rw [List.getD_eq_getElem _ _ (by simpa using h), List.getElem_map,
    List.getD_eq_getElem _ _ h]

lemma nrows_hstackCols (cols : List (List ℚ)) :
    nrows (hstackCols cols) = (cols.headD []).length := by
  simp [hstackCols, nrows]

lemma rows_hstackCols (cols : List (List ℚ)) :
    ∀ row ∈ hstackCols cols, row.length = cols.length := by
  intro row hrow
  simp only [hstackCols, List.mem_map] at hrow
  obtain ⟨r, _, hr⟩ := hrow
  simp [← hr]

lemma getCol_hstackCols (cols : List (List ℚ)) (i : Nat) (hi : i < cols.length)
    (hlen : (cols.getD i []).length = (cols.headD []).length) :
    getCol (hstackCols cols) i = cols.getD i [] := by
  unfold getCol hstackCols
  rw [List.map_map]
  have hpt : ∀ r ∈ List.range (cols.headD []).length,
      ((fun row => row.getD i 0) ∘ fun r => cols.map (fun col => col.getD r 0)) r =
        (cols.getD i []).getD r 0 := by
    intro r _
    exact getD_map_of_lt cols (fun col => col.getD r 0) i 0 [] hi
  rw [List.map_congr_left hpt, ← hlen]
  exact range_map_getD _ _

/-- C3: for binary classification, a raw `predict_proba` output with more
than one dimension is reduced to its positive-class column reshaped to a
single column — every `(n, 2)` input yields shape `(n, 1)` equal to column 1
of the input — and a one-dimensional raw output is passed through
unchanged. -/
theorem claim_C3_binary_normalization (m : Mat) (n numClasses : Nat)
    (yTrainData : List Int) (yTrain : Option (List Int))
    (hshape : nrows m = n ∧ ∀ row ∈ m, row.length = 2) :
    (predict_proba TaskType.binary (RawPred.twoD m) numClasses yTrainData yTrain =
        some (RawPred.twoD (m.map (fun row => [row.getD 1 0]))) ∧
      nrows (m.map (fun row => [row.getD 1 0])) = n ∧
      (∀ row ∈ m.map (fun row => [row.getD 1 0]), row.length = 1) ∧
      getCol (m.map (fun row => [row.getD 1 0])) 0 = getCol m 1) ∧
    (∀ v : List ℚ,
      predict_proba TaskType.binary (RawPred.oneD v) numClasses yTrainData yTrain =
        some (RawPred.oneD v)) := by
  constructor
  · refine ⟨?_, ?_, ?_, ?_⟩
    · show some (RawPred.twoD (ensurePredictionArraySizes TaskType.binary numClasses
          yTrainData yTrain (m.map (fun row => [row.getD 1 0])))) =
        some (RawPred.twoD (m.map (fun row => [row.getD 1 0])))
      rw [ensure_of_ne_multiclass TaskType.binary numClasses yTrainData yTrain
        (m.map (fun row => [row.getD 1 0])) (by intro h; cases h)]
    · simpa [nrows] using hshape.1
    · intro row hrow
      simp only [List.mem_map] at hrow
      obtain ⟨r, _, hr⟩ := hrow
      simp [← hr]
    · simp [getCol, List.map_map, Function.comp]
  · intro v
    simp [predict_proba, normalizeRaw, ensureRaw]

/-- Witness for C3: the `(2, 2)` input `[[1, 2], [3, 4]]`. -/
theorem claim_C3_binary_normalization_witness :
    (nrows [[(1 : ℚ), 2], [3, 4]] = 2 ∧
      ∀ row ∈ ([[(1 : ℚ), 2], [3, 4]] : Mat), row.length = 2) ∧
    ((predict_proba TaskType.binary (RawPred.twoD [[(1 : ℚ), 2], [3, 4]]) 2 [] none =
        some (RawPred.twoD (([[(1 : ℚ), 2], [3, 4]] : Mat).map
          (fun row => [row.getD 1 0]))) ∧
      nrows (([[(1 : ℚ), 2], [3, 4]] : Mat).map (fun row => [row.getD 1 0])) = 2 ∧
      (∀ row ∈ ([[(1 : ℚ), 2], [3, 4]] : Mat).map (fun row => [row.getD 1 0]),
        row.length = 1) ∧
      getCol (([[(1 : ℚ), 2], [3, 4]] : Mat).map (fun row => [row.getD 1 0])) 0 =
        getCol [[(1 : ℚ), 2], [3, 4]] 1) ∧
    (∀ v : List ℚ,
      predict_proba TaskType.binary (RawPred.oneD v) 2 [] none =
        some (RawPred.oneD v))) :=
  ⟨⟨by decide, by decide⟩,
    claim_C3_binary_normalization [[(1 : ℚ), 2], [3, 4]] 2 2 [] none
      ⟨by decide, by decide⟩⟩

/-- C4: for multilabel classification, a raw output given as `k` per-label
arrays each of shape `(n, 2)` is stacked column-wise: the result has shape
`(n, k)` and its column `i` equals column 1 of input array `i`. -/
theorem claim_C4_multilabel_normalization (ms : List Mat) (n k numClasses : Nat)
    (yTrainData : List Int) (yTrain : Option (List Int))
    (hk : ms.length = k) (hk0 : 0 < k)
    (hshape : ∀ mi ∈ ms, nrows mi = n ∧ ∀ row ∈ mi, row.length = 2) :
    predict_proba TaskType.multilabel (RawPred.perLabel ms) numClasses
        yTrainData yTrain =
      some (RawPred.twoD (hstackCols (ms.map lastCol))) ∧
    nrows (hstackCols (ms.map lastCol)) = n ∧
    (∀ row ∈ hstackCols (ms.map lastCol), row.length = k) ∧
    (∀ i : Nat, i < k →
      getCol (hstackCols (ms.map lastCol)) i = getCol (ms.getD i []) 1) := by
  have hms : ms ≠ [] := by
    intro h
    subst h
    simp at hk
    omega
  obtain ⟨m0, rest, hcons⟩ := List.exists_cons_of_ne_nil hms
  have hhead : (ms.map lastCol).headD [] = lastCol m0 := by rw [hcons]; rfl
  have hheadlen : ((ms.map lastCol).headD []).length = n := by
    rw [hhead, lastCol, List.length_map]
    exact (hshape m0 (by rw [hcons]; simp)).1
  have hlast : ∀ mi ∈ ms, lastCol mi = getCol mi 1 := by
    intro mi hmi
    unfold lastCol getCol
    apply List.map_congr_left
    intro row hrow
    rw [(hshape mi hmi).2 row hrow]
  refine ⟨?_, ?_, ?_, ?_⟩
  · show some (RawPred.twoD (ensurePredictionArraySizes TaskType.multilabel numClasses
        yTrainData yTrain (hstackCols (ms.map lastCol)))) =
      some (RawPred.twoD (hstackCols (ms.map lastCol)))
    rw [ensure_of_ne_multiclass TaskType.multilabel numClasses yTrainData yTrain
      (hstackCols (ms.map lastCol)) (by intro h; cases h)]
  · rw [nrows_hstackCols, hheadlen]
  · intro row hrow
    have := rows_hstackCols (ms.map lastCol) row hrow
    rwa [List.length_map, hk] at this
  · intro i hi
    have hi' : i < (ms.map lastCol).length := by
      rw [List.length_map, hk]; exact hi
    have hgetd : (ms.map lastCol).getD i [] = lastCol (ms.getD i []) :=
      getD_map_of_lt ms lastCol i [] [] (by rw [hk]; exact hi)
    have hmem : ms.getD i [] ∈ ms := by
      rw [List.getD_eq_getElem ms [] (by rw [hk]; exact hi)]
      exact List.getElem_mem _
    rw [getCol_hstackCols (ms.map lastCol) i hi' ?_, hgetd, hlast _ hmem]
    rw [hgetd, hheadlen, lastCol, List.length_map]
    exact (hshape _ hmem).1

/-- Witness for C4: two labels with `(2, 2)` per-label outputs. -/
theorem claim_C4_multilabel_normalization_witness :
    ([[[(1 : ℚ), 2], [3, 4]], [[5, 6], [7, 8]]] : List Mat).length = 2 ∧ 0 < 2 ∧
    (∀ mi ∈ ([[[(1 : ℚ), 2], [3, 4]], [[5, 6], [7, 8]]] : List Mat),
      nrows mi = 2 ∧ ∀ row ∈ mi, row.length = 2) ∧
    (predict_proba TaskType.multilabel
        (RawPred.perLabel [[[(1 : ℚ), 2], [3, 4]], [[5, 6], [7, 8]]]) 2 [] none =
      some (RawPred.twoD (hstackCols
        (([[[(1 : ℚ), 2], [3, 4]], [[5, 6], [7, 8]]] : List Mat).map lastCol))) ∧
    nrows (hstackCols
      (([[[(1 : ℚ), 2], [3, 4]], [[5, 6], [7, 8]]] : List Mat).map lastCol)) = 2 ∧
    (∀ row ∈ hstackCols
        (([[[(1 : ℚ), 2], [3, 4]], [[5, 6], [7, 8]]] : List Mat).map lastCol),
      row.length = 2) ∧
    (∀ i : Nat, i < 2 →
      getCol (hstackCols
          (([[[(1 : ℚ), 2], [3, 4]], [[5, 6], [7, 8]]] : List Mat).map lastCol)) i =
        getCol (([[[(1 : ℚ), 2], [3, 4]], [[5, 6], [7, 8]]] : List Mat).getD i []) 1)) :=
  ⟨by decide, by decide, by decide,
    claim_C4_multilabel_normalization [[[(1 : ℚ), 2], [3, 4]], [[5, 6], [7, 8]]]
      2 2 2 [] none (by decide) (by decide) (by decide)⟩

/-! ### `finish_up`: the terminal result record -/

/-- The fields of the `Result for ParamILS: %s, %f, 1, %f, %d, %s` line:
status token, absolute duration, the constant quality indicator `1`, the
error value, the seed, and the diagnostic string. -/
structure RunRecord where
  status : String
  duration : ℚ
  quality : ℚ
  errVal : ℚ
  seed : Int
  info : String
deriving DecidableEq, Repr

/-- `AbstractEvaluator.finish_up`.  `fileOut` is the outcome of the
`self.file_output()` call (`Except.error tb` models an exception with
traceback `tb` raised anywhere inside the try block); `rawDuration` is
`time.time() - self.starttime` as recomputed in the taken branch.  The
function is total: every exception is converted into the TIMEOUT record. -/
def finish_up (fileOut : Except String (ℚ × String)) (rawDuration : ℚ)
    (seed : Int) : RunRecord :=
  match fileOut with
  | Except.ok (result, additionalRunInfo) =>
    { status := "SAT", duration := |rawDuration|, quality := 1,
      errVal := result, seed := seed, info := additionalRunInfo }
  | Except.error _ =>
    { status := "TIMEOUT", duration := |rawDuration|, quality := 1,
      errVal := 1.0, seed := seed,
      info := "No results were produced! Probably the training was not " ++
        "finished and no valid model was generated!" }

/-- C2: for every exception raised during result production, `finish_up`
emits a terminal record with status token `TIMEOUT`, sentinel error value
`1.0`, a non-negative duration, the seed, and a diagnostic stating that no
valid model was produced.  `finish_up` is a total function (it returns a
`RunRecord` for every input), so it never raises to its caller. -/
theorem claim_C2_finish_up_failure (tb : String) (rawDuration : ℚ) (seed : Int) :
    (finish_up (Except.error tb) rawDuration seed).status = "TIMEOUT" ∧
    (finish_up (Except.error tb) rawDuration seed).errVal = 1.0 ∧
    0 ≤ (finish_up (Except.error tb) rawDuration seed).duration ∧
    (finish_up (Except.error tb) rawDuration seed).seed = seed ∧
    (finish_up (Except.error tb) rawDuration seed).info =
      "No results were produced! Probably the training was not " ++
        "finished and no valid model was generated!" :=
  ⟨rfl, rfl, abs_nonneg rawDuration, rfl, rfl⟩

/-! ### Artifact paths and the environment seed -/

/-- Python `str.zfill(w)`: left-pad with `'0'` to width `w`. -/
def zfill (w : Nat) (s : String) : String :=
  if s.length < w then String.mk (List.replicate (w - s.length) '0') ++ s else s

/-- The `pred_dump_name_template` of `file_output` after `%`-substitution:
`{output_dir}/predictions_{split}_{seed}/{basename}_predictions_{split}_{run:05}.npy`.
The same `split` is substituted for both `%s` occurrences at every call
site (`ensemble`, `valid`, `test`). -/
def predDumpName (outputDir basename : String) (numRun : Nat)
    (split seedStr : String) : String :=
  outputDir ++ "/predictions_" ++ split ++ "_" ++ seedStr ++ "/" ++
    basename ++ "_predictions_" ++ split ++ "_" ++ zfill 5 (toString numRun) ++ ".npy"

/-- `os.environ.get(key)`: `none` when the variable is absent. -/
def environGet (env : List (String × String)) (key : String) : Option String :=
  (env.find? (fun p => p.1 == key)).map Prod.snd

/-- Python `'%s' % v` for `v` an optional string: `None` renders as the
literal string `"None"`. -/
def pyFormat : Option String → String
  | some s => s
  | none => "None"

/-- The seed string used by `file_output` in every directory and file name:
`os.environ.get('AUTOSKLEARN_SEED')` rendered through `'%s'`. -/
def fileOutputSeedStr (env : List (String × String)) : String :=
  pyFormat (environGet env "AUTOSKLEARN_SEED")

/-- The `predictions_ensemble_%s` directory computed by `file_output`. -/
def ensembleOutputDir (env : List (String × String)) (outputDir : String) : String :=
  outputDir ++ "/predictions_ensemble_" ++ fileOutputSeedStr env

/-- The ensemble prediction path computed by `file_output` from the process
environment. -/
def ensemblePredPath (env : List (String × String))
    (outputDir basename : String) (numRun : Nat) : String :=
  predDumpName outputDir basename numRun "ensemble" (fileOutputSeedStr env)

/-- C5: the artifact path is a pure function of its five arguments —
computing it twice with identical arguments yields identical strings — it
has the documented `{output_dir}/predictions_{split}_{seed}/{basename}_predictions_{split}_{run:05d}.npy`
form, and varying the run number changes only the zero-padded numeric
suffix: the rest of the path is a prefix independent of the run number. -/
theorem claim_C5_artifact_path (outputDir basename split seedStr : String)
    (numRun : Nat) :
    predDumpName outputDir basename numRun split seedStr =
      predDumpName outputDir basename numRun split seedStr ∧
    predDumpName outputDir basename numRun split seedStr =
      outputDir ++ "/predictions_" ++ split ++ "_" ++ seedStr ++ "/" ++
        basename ++ "_predictions_" ++ split ++ "_" ++
        zfill 5 (toString numRun) ++ ".npy" ∧
    (∃ prefixStr : String, ∀ r : Nat,
      predDumpName outputDir basename r split seedStr =
        prefixStr ++ zfill 5 (toString r) ++ ".npy") :=
  ⟨rfl, rfl,
    ⟨outputDir ++ "/predictions_" ++ split ++ "_" ++ seedStr ++ "/" ++
      basename ++ "_predictions_" ++ split ++ "_",
      fun r => by simp [predDumpName, String.append_assoc]⟩⟩

/-- C6 counterexample: with an environment that does not define
`AUTOSKLEARN_SEED`, `file_output`'s path computation does not surface any
error — `os.environ.get` returns `None` and the `%s` substitution silently
renders it as the literal string `"None"` inside the computed paths.  The
claim that absence "is surfaced as a configuration error rather than being
silently defaulted into the computed paths" is therefore false for the
empty environment. -/
theorem claim_C6_counterexample :
    environGet [] "AUTOSKLEARN_SEED" = none ∧
    ensembleOutputDir [] "/out" = "/out/predictions_ensemble_None" ∧
    ensemblePredPath [] "/out" "data" 3 =
      "/out/predictions_ensemble_None/data_predictions_ensemble_00003.npy" := by
  refine ⟨rfl, rfl, ?_⟩
  rfl

/-- C6 amended: the seed value is read from the process environment at
write time, but when it is absent no error is raised — the missing value is
silently rendered as the literal string `"None"` inside every computed
directory and file name. -/
theorem claim_C6_amended (env : List (String × String))
    (outputDir basename : String) (numRun : Nat)
    (habsent : environGet env "AUTOSKLEARN_SEED" = none) :
    fileOutputSeedStr env = "None" ∧
    ensembleOutputDir env outputDir = outputDir ++ "/predictions_ensemble_" ++ "None" ∧
    ensemblePredPath env outputDir basename numRun =
      predDumpName outputDir basename numRun "ensemble" "None" := by
  have hs : fileOutputSeedStr env = "None" := by
    rw [fileOutputSeedStr, habsent]
    rfl
  refine ⟨hs, ?_, ?_⟩
  · rw [ensembleOutputDir, hs]
  · rw [ensemblePredPath, hs]

/-- Witness for the amended C6 at the empty environment. -/
theorem claim_C6_amended_witness :
    environGet [] "AUTOSKLEARN_SEED" = none ∧
    (fileOutputSeedStr [] = "None" ∧
     ensembleOutputDir [] "/out" = "/out" ++ "/predictions_ensemble_" ++ "None" ∧
     ensemblePredPath [] "/out" "data" 7 =
       predDumpName "/out" "data" 7 "ensemble" "None") :=
  ⟨rfl, claim_C6_amended [] "/out" "data" 7 rfl⟩

/-! ### Directory creation in `file_output` -/

/-- An `OSError` raised by `os.makedirs`, identified by its errno
(`17 = EEXIST`, `13 = EACCES`, ...). -/
structure OSError where
  errno : Nat
deriving DecidableEq, Repr

/-- Lines 106-109 of `file_output`:
`try: os.makedirs(self.output_dir) except OSError: pass`.
`mk` is the outcome of the `os.makedirs` call; every `OSError` — not just
the directory-already-exists case — is swallowed. -/
def makeOutputDirForYTest (mk : Except OSError Unit) : Except OSError Unit :=
  match mk with
  | Except.ok _ => Except.ok ()
  | Except.error _ => Except.ok ()

/-- Lines 118-119 (and 127-128, 136-137) of `file_output`:
`if not os.path.exists(dir): os.makedirs(dir)`.  When the directory already
exists the creation is skipped; otherwise the outcome of `os.makedirs`
(including any `OSError`) is propagated. -/
def makeSplitOutputDir (dirExists : Bool) (mk : Except OSError Unit) :
    Except OSError Unit :=
  if dirExists then Except.ok () else mk

/-- C7 counterexample: at the `output_dir` creation site guarding the
ground-truth write (lines 106-109), a permission-denied failure
(`errno 13`, not a directory-already-exists error) is locally recovered —
the `except OSError: pass` swallows it and the write proceeds — refuting
the claim that any directory-creation failure other than
already-existing is fatal and propagates. -/
theorem claim_C7_counterexample :
    makeOutputDirForYTest (Except.error ⟨13⟩) = Except.ok () := rfl

/-- C7 amended: at the per-split prediction directories, an already-existing
directory is tolerated (creation skipped, the write proceeds) and any
`os.makedirs` failure propagates unhandled; but at the `output_dir`
creation preceding the ground-truth write, every `OSError` — not only the
already-existing case — is suppressed locally. -/
theorem claim_C7_amended :
    (∀ mk : Except OSError Unit, makeSplitOutputDir true mk = Except.ok ()) ∧
    (∀ mk : Except OSError Unit, makeSplitOutputDir false mk = mk) ∧
    (∀ mk : Except OSError Unit, makeOutputDirForYTest mk = Except.ok ()) := by
  refine ⟨fun mk => rfl, fun mk => rfl, fun mk => ?_⟩
  cases mk with
  | ok u => rfl
  | error e => rfl

/-! ### The filesystem operations performed by `file_output` (lines 105-140) -/

/-- One filesystem side effect of `file_output`, in program order. -/
inductive FsOp
  | makedirsTolerant (dir : String)
  | makedirsIfAbsent (dir : String)
  | lockedWrite (path : String)
  | write (path : String)
deriving DecidableEq, Repr

/-- The ordered filesystem side effects of `file_output`: optionally the
tolerant `output_dir` creation and the lock-protected `y_optimization.npy`
write (lines 105-114); then the ensemble directory and per-run ensemble
prediction write (lines 116-122); then, when present, the valid and test
directories and per-run writes (lines 124-140). -/
def fileOutputOps (outputYTest hasValid hasTest : Bool)
    (outputDir basename seedStr : String) (numRun : Nat) : List FsOp :=
  (if outputYTest then
    [FsOp.makedirsTolerant outputDir,
     FsOp.lockedWrite (outputDir ++ "/y_optimization.npy")]
  else []) ++
  [FsOp.makedirsIfAbsent (outputDir ++ "/predictions_ensemble_" ++ seedStr),
   FsOp.write (predDumpName outputDir basename numRun "ensemble" seedStr)] ++
  (if hasValid then
    [FsOp.makedirsIfAbsent (outputDir ++ "/predictions_valid_" ++ seedStr),
     FsOp.write (predDumpName outputDir basename numRun "valid" seedStr)]
  else []) ++
  (if hasTest then
    [FsOp.makedirsIfAbsent (outputDir ++ "/predictions_test_" ++ seedStr),
     FsOp.write (predDumpName outputDir basename numRun "test" seedStr)]
  else [])

/-! ### Two writers racing on the shared ground-truth file

The `with lockfile.LockFile(y_test_filename + '.lock'): with open(...):
pickle.dump(...)` block of `file_output` is modelled as a five-step writer
program: acquire the exclusive lock, truncate the file on open, write the
serialized content (as two chunks, since a serialization is not a single
atomic store), and release the lock when the `with` block exits.  Two such
writers interleave arbitrarily; the lock blocks `acquire` while held. -/

/-- Joint state of two writers sharing one lock and one file.  `pc` values:
0 = before acquire, 1 = holding the lock before open, 2 = file truncated,
3 = first chunk written, 4 = second chunk written, 5 = done (lock
released).  The file is the list of chunks it currently holds, each tagged
`(writer, chunk index)`. -/
structure WState where
  pc0 : Nat
  pc1 : Nat
  lock : Option Nat
  file : List (Nat × Nat)
deriving DecidableEq, Repr

/-- The complete serialized content of writer `i`. -/
def fullWrite (i : Nat) : List (Nat × Nat) := [(i, 0), (i, 1)]

/-- Interleaving small-step semantics of the two writers.  `acquire` is only
enabled while no one holds the lock; all other actions follow each writer's
program order. -/
inductive WStep : WState → WState → Prop
  | acquire0 (s : WState) (hpc : s.pc0 = 0) (hl : s.lock = none) :
      WStep s { s with pc0 := 1, lock := some 0 }
  | trunc0 (s : WState) (hpc : s.pc0 = 1) :
      WStep s { s with pc0 := 2, file := [] }
  | chunkA0 (s : WState) (hpc : s.pc0 = 2) :
      WStep s { s with pc0 := 3, file := s.file ++ [(0, 0)] }
  | chunkB0 (s : WState) (hpc : s.pc0 = 3) :
      WStep s { s with pc0 := 4, file := s.file ++ [(0, 1)] }
  | release0 (s : WState) (hpc : s.pc0 = 4) :
      WStep s { s with pc0 := 5, lock := none }
  | acquire1 (s : WState) (hpc : s.pc1 = 0) (hl : s.lock = none) :
      WStep s { s with pc1 := 1, lock := some 1 }
  | trunc1 (s : WState) (hpc : s.pc1 = 1) :
      WStep s { s with pc1 := 2, file := [] }
  | chunkA1 (s : WState) (hpc : s.pc1 = 2) :
      WStep s { s with pc1 := 3, file := s.file ++ [(1, 0)] }
  | chunkB1 (s : WState) (hpc : s.pc1 = 3) :
      WStep s { s with pc1 := 4, file := s.file ++ [(1, 1)] }
  | release1 (s : WState) (hpc : s.pc1 = 4) :
      WStep s { s with pc1 := 5, lock := none }

/-- States reachable from both writers at their start with a free lock and
an empty file. -/
inductive Reach : WState → Prop
  | start : Reach ⟨0, 0, none, []⟩
  | step {s s' : WState} : Reach s → WStep s s' → Reach s'

/-- Inductive invariant of the two-writer system: the lock holder is exactly
the writer whose program counter is strictly between acquire and release,
and the file content is determined by the holder's progress (or, with the
lock free, is empty or one writer's complete content). -/
def Inv (s : WState) : Prop :=
  (s.lock = none →
      (s.pc0 = 0 ∨ s.pc0 = 5) ∧ (s.pc1 = 0 ∨ s.pc1 = 5) ∧
      ((s.file = [] ∧ s.pc0 = 0 ∧ s.pc1 = 0) ∨
       (s.file = fullWrite 0 ∧ s.pc0 = 5) ∨
       (s.file = fullWrite 1 ∧ s.pc1 = 5))) ∧
  (s.lock = some 0 →
      1 ≤ s.pc0 ∧ s.pc0 ≤ 4 ∧ (s.pc1 = 0 ∨ s.pc1 = 5) ∧
      (s.pc0 = 1 → s.file = [] ∨ (s.file = fullWrite 1 ∧ s.pc1 = 5)) ∧
      (s.pc0 = 2 → s.file = []) ∧
      (s.pc0 = 3 → s.file = [(0, 0)]) ∧
      (s.pc0 = 4 → s.file = fullWrite 0)) ∧
  (s.lock = some 1 →
      1 ≤ s.pc1 ∧ s.pc1 ≤ 4 ∧ (s.pc0 = 0 ∨ s.pc0 = 5) ∧
      (s.pc1 = 1 → s.file = [] ∨ (s.file = fullWrite 0 ∧ s.pc0 = 5)) ∧
      (s.pc1 = 2 → s.file = []) ∧
      (s.pc1 = 3 → s.file = [(1, 0)]) ∧
      (s.pc1 = 4 → s.file = fullWrite 1)) ∧
  (s.lock = none ∨ s.lock = some 0 ∨ s.lock = some 1)

lemma inv_step {s s' : WState} (hinv : Inv s) (hstep : WStep s s') : Inv s' := by
  obtain ⟨hN, hG0, hG1, hDom⟩ := hinv
  cases hstep with
  | acquire0 hpc hl =>
    obtain ⟨hA, hB, hC⟩ := hN hl
    dsimp only [Inv]
    refine ⟨fun h => absurd h (by simp), fun _ => ?_,
      fun h => absurd h (by simp), Or.inr (Or.inl rfl)⟩
    refine ⟨by omega, by omega, hB, fun _ => ?_, fun h => absurd h (by decide),
      fun h => absurd h (by decide), fun h => absurd h (by decide)⟩
    rcases hC with ⟨hf, -, -⟩ | ⟨hf, hp⟩ | ⟨hf, hp⟩
    · exact Or.inl hf
    · exfalso; omega
    · exact Or.inr ⟨hf, hp⟩
  | trunc0 hpc =>
    rcases hDom with hl | hl | hl
    · exfalso; rcases (hN hl).1 with h | h <;> omega
    · obtain ⟨h1, h2, h3, h4, h5, h6, h7⟩ := hG0 hl
      dsimp only [Inv]
      refine ⟨fun h => by rw [hl] at h; exact Option.noConfusion h, fun _ => ?_,
        fun h => by rw [hl] at h; exact absurd h (by simp), Or.inr (Or.inl hl)⟩
      exact ⟨by omega, by omega, h3, fun h => absurd h (by decide), fun _ => rfl,
        fun h => absurd h (by decide), fun h => absurd h (by decide)⟩
    · exfalso; rcases (hG1 hl).2.2.1 with h | h <;> omega
  | chunkA0 hpc =>
    rcases hDom with hl | hl | hl
    · exfalso; rcases (hN hl).1 with h | h <;> omega
    · obtain ⟨h1, h2, h3, h4, h5, h6, h7⟩ := hG0 hl
      dsimp only [Inv]
      refine ⟨fun h => by rw [hl] at h; exact Option.noConfusion h, fun _ => ?_,
        fun h => by rw [hl] at h; exact absurd h (by simp), Or.inr (Or.inl hl)⟩
      refine ⟨by omega, by omega, h3, fun h => absurd h (by decide),
        fun h => absurd h (by decide), fun _ => ?_, fun h => absurd h (by decide)⟩
      rw [h5 hpc]
      rfl
    · exfalso; rcases (hG1 hl).2.2.1 with h | h <;> omega
  | chunkB0 hpc =>
    rcases hDom with hl | hl | hl
    · exfalso; rcases (hN hl).1 with h | h <;> omega
    · obtain ⟨h1, h2, h3, h4, h5, h6, h7⟩ := hG0 hl
      dsimp only [Inv]
      refine ⟨fun h => by rw [hl] at h; exact Option.noConfusion h, fun _ => ?_,
        fun h => by rw [hl] at h; exact absurd h (by simp), Or.inr (Or.inl hl)⟩
      refine ⟨by omega, by omega, h3, fun h => absurd h (by decide),
        fun h => absurd h (by decide), fun h => absurd h (by decide), fun _ => ?_⟩
      rw [h6 hpc]
      rfl
    · exfalso; rcases (hG1 hl).2.2.1 with h | h <;> omega
  | release0 hpc =>
    rcases hDom with hl | hl | hl
    · exfalso; rcases (hN hl).1 with h | h <;> omega
    · obtain ⟨h1, h2, h3, h4, h5, h6, h7⟩ := hG0 hl
      dsimp only [Inv]
      refine ⟨fun _ => ?_, fun h => absurd h (by simp),
        fun h => absurd h (by simp), Or.inl rfl⟩
      exact ⟨Or.inr rfl, h3, Or.inr (Or.inl ⟨h7 hpc, rfl⟩)⟩
    · exfalso; rcases (hG1 hl).2.2.1 with h | h <;> omega
  | acquire1 hpc hl =>
    obtain ⟨hA, hB, hC⟩ := hN hl
    dsimp only [Inv]
    refine ⟨fun h => absurd h (by simp), fun h => absurd h (by simp),
      fun _ => ?_, Or.inr (Or.inr rfl)⟩
    refine ⟨by omega, by omega, hA, fun _ => ?_, fun h => absurd h (by decide),
      fun h => absurd h (by decide), fun h => absurd h (by decide)⟩
    rcases hC with ⟨hf, -, -⟩ | ⟨hf, hp⟩ | ⟨hf, hp⟩
    · exact Or.inl hf
    · exact Or.inr ⟨hf, hp⟩
    · exfalso; omega
  | trunc1 hpc =>
    rcases hDom with hl | hl | hl
    · exfalso; rcases (hN hl).2.1 with h | h <;> omega
    · exfalso; rcases (hG0 hl).2.2.1 with h | h <;> omega
    · obtain ⟨h1, h2, h3, h4, h5, h6, h7⟩ := hG1 hl
      dsimp only [Inv]
      refine ⟨fun h => by rw [hl] at h; exact Option.noConfusion h,
        fun h => by rw [hl] at h; exact absurd h (by simp), fun _ => ?_,
        Or.inr (Or.inr hl)⟩
      exact ⟨by omega, by omega, h3, fun h => absurd h (by decide), fun _ => rfl,
        fun h => absurd h (by decide), fun h => absurd h (by decide)⟩
  | chunkA1 hpc =>
    rcases hDom with hl | hl | hl
    · exfalso; rcases (hN hl).2.1 with h | h <;> omega
    · exfalso; rcases (hG0 hl).2.2.1 with h | h <;> omega
    · obtain ⟨h1, h2, h3, h4, h5, h6, h7⟩ := hG1 hl
      dsimp only [Inv]
      refine ⟨fun h => by rw [hl] at h; exact Option.noConfusion h,
        fun h => by rw [hl] at h; exact absurd h (by simp), fun _ => ?_,
        Or.inr (Or.inr hl)⟩
      refine ⟨by omega, by omega, h3, fun h => absurd h (by decide),
        fun h => absurd h (by decide), fun _ => ?_, fun h => absurd h (by decide)⟩
      rw [h5 hpc]
      rfl
  | chunkB1 hpc =>
    rcases hDom with hl | hl | hl
    · exfalso; rcases (hN hl).2.1 with h | h <;> omega
    · exfalso; rcases (hG0 hl).2.2.1 with h | h <;> omega
    · obtain ⟨h1, h2, h3, h4, h5, h6, h7⟩ := hG1 hl
      dsimp only [Inv]
      refine ⟨fun h => by rw [hl] at h; exact Option.noConfusion h,
        fun h => by rw [hl] at h; exact absurd h (by simp), fun _ => ?_,
        Or.inr (Or.inr hl)⟩
      refine ⟨by omega, by omega, h3, fun h => absurd h (by decide),
        fun h => absurd h (by decide), fun h => absurd h (by decide), fun _ => ?_⟩
      rw [h6 hpc]
      rfl
  | release1 hpc =>
    rcases hDom with hl | hl | hl
    · exfalso; rcases (hN hl).2.1 with h | h <;> omega
    · exfalso; rcases (hG0 hl).2.2.1 with h | h <;> omega
    · obtain ⟨h1, h2, h3, h4, h5, h6, h7⟩ := hG1 hl
      dsimp only [Inv]
      refine ⟨fun _ => ?_, fun h => absurd h (by simp),
        fun h => absurd h (by simp), Or.inl rfl⟩
      exact ⟨h3, Or.inr rfl, Or.inr (Or.inr ⟨h7 hpc, rfl⟩)⟩

lemma inv_reach {s : WState} (h : Reach s) : Inv s := by
  induction h with
  | start => simp [Inv]
  | step _ hstep ih => exact inv_step ih hstep

set_option maxHeartbeats 1000000 in
lemma lockedWrite_mem_fileOutputOps (outputYTest hasValid hasTest : Bool)
    (outputDir basename seedStr : String) (numRun : Nat) (p : String)
    (hp : FsOp.lockedWrite p ∈ fileOutputOps outputYTest hasValid hasTest
      outputDir basename seedStr numRun) :
    p = outputDir ++ "/y_optimization.npy" := by
  cases outputYTest <;> cases hasValid <;> cases hasTest <;>
    simp [fileOutputOps] at hp <;> exact hp

set_option maxHeartbeats 1000000 in
lemma write_mem_fileOutputOps (outputYTest hasValid hasTest : Bool)
    (outputDir basename seedStr : String) (numRun : Nat) (p : String)
    (hp : FsOp.write p ∈ fileOutputOps outputYTest hasValid hasTest
      outputDir basename seedStr numRun) :
    p = predDumpName outputDir basename numRun "ensemble" seedStr ∨
    p = predDumpName outputDir basename numRun "valid" seedStr ∨
    p = predDumpName outputDir basename numRun "test" seedStr := by
  cases outputYTest <;> cases hasValid <;> cases hasTest <;>
    simp [fileOutputOps] at hp <;> tauto

/-- C9: in every reachable state of two writers racing on the shared
ground-truth file, the lock is held by any writer that is between its
acquire and its release (so the exclusive lock is held for the entire
duration of the truncate-and-write and released at the end), at most one
writer is inside that region at a time, and once both writers are done the
lock is free and the file holds exactly one writer's complete,
uncorrupted content.  Moreover, in `file_output`'s operation sequence the
only lock-protected write is the shared `y_optimization.npy` file; every
per-run prediction file is written without locking, at a path carrying the
run number. -/
theorem claim_C9_shared_file_lock (s : WState) (h : Reach s) :
    ((1 ≤ s.pc0 ∧ s.pc0 ≤ 4) → s.lock = some 0) ∧
    ((1 ≤ s.pc1 ∧ s.pc1 ≤ 4) → s.lock = some 1) ∧
    ¬((1 ≤ s.pc0 ∧ s.pc0 ≤ 4) ∧ (1 ≤ s.pc1 ∧ s.pc1 ≤ 4)) ∧
    (s.pc0 = 5 ∧ s.pc1 = 5 →
      s.lock = none ∧ (s.file = fullWrite 0 ∨ s.file = fullWrite 1)) ∧
    (∀ (outputYTest hasValid hasTest : Bool) (outputDir basename seedStr : String)
        (numRun : Nat) (p : String),
      FsOp.lockedWrite p ∈ fileOutputOps outputYTest hasValid hasTest outputDir
          basename seedStr numRun →
        p = outputDir ++ "/y_optimization.npy") ∧
    (∀ (outputYTest hasValid hasTest : Bool) (outputDir basename seedStr : String)
        (numRun : Nat) (p : String),
      FsOp.write p ∈ fileOutputOps outputYTest hasValid hasTest outputDir
          basename seedStr numRun →
        p = predDumpName outputDir basename numRun "ensemble" seedStr ∨
        p = predDumpName outputDir basename numRun "valid" seedStr ∨
        p = predDumpName outputDir basename numRun "test" seedStr) := by
  obtain ⟨hN, hG0, hG1, hDom⟩ := inv_reach h
  refine ⟨?_, ?_, ?_, ?_, ?_, ?_⟩
  · rintro ⟨ha, hb⟩
    rcases hDom with hl | hl | hl
    · exfalso; rcases (hN hl).1 with h' | h' <;> omega
    · exact hl
    · exfalso; rcases (hG1 hl).2.2.1 with h' | h' <;> omega
  · rintro ⟨ha, hb⟩
    rcases hDom with hl | hl | hl
    · exfalso; rcases (hN hl).2.1 with h' | h' <;> omega
    · exfalso; rcases (hG0 hl).2.2.1 with h' | h' <;> omega
    · exact hl
  · rintro ⟨⟨ha, hb⟩, ⟨hc, hd⟩⟩
    rcases hDom with hl | hl | hl
    · rcases (hN hl).1 with h' | h' <;> omega
    · rcases (hG0 hl).2.2.1 with h' | h' <;> omega
    · rcases (hG1 hl).2.2.1 with h' | h' <;> omega
  · rintro ⟨ha, hb⟩
    rcases hDom with hl | hl | hl
    · refine ⟨hl, ?_⟩
      rcases (hN hl).2.2 with ⟨-, h', -⟩ | ⟨hf, -⟩ | ⟨hf, -⟩
      · omega
      · exact Or.inl hf
      · exact Or.inr hf
    · exfalso; have := (hG0 hl).2.1; omega
    · exfalso; have := (hG1 hl).2.1; omega
  · intro oy hv ht od bn ss nr p hp
    exact lockedWrite_mem_fileOutputOps oy hv ht od bn ss nr p hp
  · intro oy hv ht od bn ss nr p hp
    exact write_mem_fileOutputOps oy hv ht od bn ss nr p hp

/-- Witness for C9: the explicit execution in which writer 0 runs its whole
locked write and then writer 1 does — at its end the lock is free and the
file is exactly writer 1's complete content. -/
theorem claim_C9_shared_file_lock_witness :
    (⟨5, 5, none, [(1, 0), (1, 1)]⟩ : WState).pc0 = 5 ∧
    (⟨5, 5, none, [(1, 0), (1, 1)]⟩ : WState).pc1 = 5 ∧
    (⟨5, 5, none, [(1, 0), (1, 1)]⟩ : WState).lock = none ∧
    ((⟨5, 5, none, [(1, 0), (1, 1)]⟩ : WState).file = fullWrite 0 ∨
     (⟨5, 5, none, [(1, 0), (1, 1)]⟩ : WState).file = fullWrite 1) := by
  have h1 : Reach ⟨1, 0, some 0, []⟩ :=
    Reach.step Reach.start (WStep.acquire0 _ rfl rfl)
  have h2 : Reach ⟨2, 0, some 0, []⟩ := Reach.step h1 (WStep.trunc0 _ rfl)
  have h3 : Reach ⟨3, 0, some 0, [(0, 0)]⟩ := Reach.step h2 (WStep.chunkA0 _ rfl)
  have h4 : Reach ⟨4, 0, some 0, [(0, 0), (0, 1)]⟩ :=
    Reach.step h3 (WStep.chunkB0 _ rfl)
  have h5 : Reach ⟨5, 0, none, [(0, 0), (0, 1)]⟩ :=
    Reach.step h4 (WStep.release0 _ rfl)
  have h6 : Reach ⟨5, 1, some 1, [(0, 0), (0, 1)]⟩ :=
    Reach.step h5 (WStep.acquire1 _ rfl rfl)
  have h7 : Reach ⟨5, 2, some 1, []⟩ := Reach.step h6 (WStep.trunc1 _ rfl)
  have h8 : Reach ⟨5, 3, some 1, [(1, 0)]⟩ := Reach.step h7 (WStep.chunkA1 _ rfl)
  have h9 : Reach ⟨5, 4, some 1, [(1, 0), (1, 1)]⟩ :=
    Reach.step h8 (WStep.chunkB1 _ rfl)
  have h10 : Reach ⟨5, 5, none, [(1, 0), (1, 1)]⟩ :=
    Reach.step h9 (WStep.release1 _ rfl)
  have hc := (claim_C9_shared_file_lock _ h10).2.2.2.1 ⟨rfl, rfl⟩
  exact ⟨rfl, rfl, hc.1, hc.2⟩

end AutoSklearn
